import Mathlib

/-!
Shallow embedding of the job-search application's core logic:
the derived view-state pipeline (sort / paginate) from
`JobItemsContextProvider`, the list view-state machine
(`handleChangePage`, `handleChangeSortBy`, debounced search text),
the hooks in `src/lib/hooks.ts` (`useSearchQuery`, `useJobItem`,
`useDebounce`, `useActiveId`, `useLocalStorage`) and the error path
(`fetchJobItem`, `handleError`).  JavaScript numbers that only ever
hold integers are modelled as `Int`/`Nat`; the float `relevanceScore`
and the float division `totalNumberOfResults / RESULTS_PER_PAGE` are
modelled over `ℚ` (exact arithmetic; every fact proved below depends
only on ordering/sign, which float arithmetic preserves at the
magnitudes involved).
-/

namespace RemoteDev

/-- A job item as used by the sort pipeline (`src/lib/types.ts` shape):
`relevanceScore` is a server-computed float (modelled as `ℚ`),
`daysAgo` an integer. -/
structure JobItem where
  id : Nat
  title : String
  companyName : String
  relevanceScore : ℚ
  daysAgo : Int
deriving DecidableEq, Repr

/-- The comparator passed to `Array.prototype.sort` in `jobItemsSorted`
(`JobItemsContextProvider`): `"relevant"` → `b.relevanceScore -
a.relevanceScore`, `"recent"` → `a.daysAgo - b.daysAgo`, anything else
→ `0`. -/
def jobComparator (sortBy : String) (a b : JobItem) : ℚ :=
  if sortBy = "relevant" then b.relevanceScore - a.relevanceScore
  else if sortBy = "recent" then (a.daysAgo : ℚ) - (b.daysAgo : ℚ)
  else 0

/-- The ordering relation induced by the comparator: JS `sort` places
`a` no later than `b` exactly when the comparator is `≤ 0`. -/
def jobRel (sortBy : String) (a b : JobItem) : Prop :=
  jobComparator sortBy a b ≤ 0

instance (sortBy : String) : DecidableRel (jobRel sortBy) := fun a b =>
  inferInstanceAs (Decidable (jobComparator sortBy a b ≤ 0))

/-- `jobItemsSorted` from `JobItemsContextProvider`:
`[...(jobItems || [])].sort(comparator)`.  JS `Array.prototype.sort`
is a stable comparison sort; it is modelled by stable insertion sort
with the relation `comparator a b ≤ 0`. -/
def jobItemsSorted (jobItems : Option (List JobItem)) (sortBy : String) : List JobItem :=
  List.insertionSort (jobRel sortBy) (jobItems.getD [])

theorem jobRel_total (s : String) : ∀ a b, jobRel s a b ∨ jobRel s b a := by
  intro a b
  unfold jobRel jobComparator
  split_ifs <;> rcases le_total a.relevanceScore b.relevanceScore with h | h <;>
    rcases le_total (a.daysAgo : ℚ) (b.daysAgo : ℚ) with h2 | h2 <;>
    first
    | (left; linarith)
    | (right; linarith)

theorem jobRel_trans (s : String) :
    ∀ a b c, jobRel s a b → jobRel s b c → jobRel s a c := by
  intro a b c
  unfold jobRel jobComparator
  split_ifs <;> intro h1 h2 <;> linarith

theorem jobItemsSorted_sorted (jobItems : Option (List JobItem)) (s : String) :
    List.Sorted (jobRel s) (jobItemsSorted jobItems s) := by
  haveI : IsTotal JobItem (jobRel s) := ⟨jobRel_total s⟩
  haveI : IsTrans JobItem (jobRel s) := ⟨jobRel_trans s⟩
  exact List.sorted_insertionSort (jobRel s) (jobItems.getD [])

/-- With a relation that always holds, stable insertion sort is the
identity (every element is inserted in front). -/
theorem insertionSort_of_total_rel {α : Type} (r : α → α → Prop) [DecidableRel r]
    (h : ∀ a b, r a b) : ∀ l : List α, List.insertionSort r l = l := by
  intro l
  induction l with
  | nil => rfl
  | cons a t ih =>
      simp only [List.insertionSort, ih]
      cases t with
      | nil => rfl
      | cons b t' => simp [List.orderedInsert, h a b]

/-- C1.  For every job list and every `sortBy`: `"relevant"` sorts
non-increasing in `relevanceScore`; `"recent"` sorts non-decreasing in
`daysAgo`; any unrecognized `sortBy` makes the comparator return `0`
on every pair and the sort a stable no-op (output = input). -/
theorem jobItemsSorted_spec (jobItems : Option (List JobItem)) (s : String) :
    (s = "relevant" →
      List.Sorted (fun a b => b.relevanceScore ≤ a.relevanceScore)
        (jobItemsSorted jobItems s)) ∧
    (s = "recent" →
      List.Sorted (fun a b => a.daysAgo ≤ b.daysAgo) (jobItemsSorted jobItems s)) ∧
    (s ≠ "relevant" → s ≠ "recent" →
      (∀ a b, jobComparator s a b = 0) ∧
      jobItemsSorted jobItems s = jobItems.getD []) := by
  refine ⟨?_, ?_, ?_⟩
  · intro hs
    subst hs
    refine (jobItemsSorted_sorted jobItems "relevant").imp ?_
    intro a b hab
    unfold jobRel jobComparator at hab
    rw [if_pos rfl] at hab
    linarith
  · intro hs
    subst hs
    refine (jobItemsSorted_sorted jobItems "recent").imp ?_
    intro a b hab
    unfold jobRel jobComparator at hab
    rw [if_neg (by decide), if_pos rfl] at hab
    have h : (a.daysAgo : ℚ) ≤ (b.daysAgo : ℚ) := by linarith
    exact_mod_cast h
  · intro h1 h2
    have hcomp : ∀ a b, jobComparator s a b = 0 := by
      intro a b
      unfold jobComparator
      rw [if_neg h1, if_neg h2]
    refine ⟨hcomp, ?_⟩
    unfold jobItemsSorted
    apply insertionSort_of_total_rel
    intro a b
    unfold jobRel
    rw [hcomp a b]

/-- Witness for C1 at a concrete input: an unrecognized `sortBy`
leaves the list untouched. -/
theorem jobItemsSorted_spec_witness :
    jobItemsSorted (some [⟨1, "a", "x", 1, 3⟩, ⟨2, "b", "y", 2, 1⟩]) "other" =
      [⟨1, "a", "x", 1, 3⟩, ⟨2, "b", "y", 2, 1⟩] :=
  ((jobItemsSorted_spec (some [⟨1, "a", "x", 1, 3⟩, ⟨2, "b", "y", 2, 1⟩])
      "other").2.2 (by decide) (by decide)).2

/-! ### Pagination (`jobItemsSortedAndSliced`, C2) -/

/-- JavaScript `Array.prototype.slice(start, end)` for non-negative
in-range indices: the elements at positions `[start, end)`. -/
def jsSlice {α : Type} (l : List α) (a b : Nat) : List α :=
  (l.drop a).take (b - a)

/-- `jobItemsSortedAndSliced` from `JobItemsContextProvider`:
`sorted.slice(currentPage * k - k, currentPage * k)` where `k` is
`RESULTS_PER_PAGE`. -/
def jobItemsSortedAndSliced (sorted : List JobItem) (currentPage k : Nat) : List JobItem :=
  jsSlice sorted (currentPage * k - k) (currentPage * k)

/-- `ceil(totalResults / pageSize)`, the number of pages. -/
def numPages (totalResults k : Nat) : Nat :=
  (totalResults + k - 1) / k

/-- Pages 1 .. `numPages`, in order, concatenated. -/
def allPages (sorted : List JobItem) (k : Nat) : List JobItem :=
  ((List.range (numPages sorted.length k)).map
    (fun i => jobItemsSortedAndSliced sorted (i + 1) k)).flatten

theorem jsSlice_shift {α : Type} (l : List α) (i k : Nat) :
    jsSlice l ((i + 1) * k) ((i + 2) * k) = jsSlice (l.drop k) (i * k) ((i + 1) * k) := by
  unfold jsSlice
  rw [List.drop_drop]
  have e1 : (i + 2) * k = i * k + k + k := by ring
  have e2 : (i + 1) * k = i * k + k := by ring
  rw [e1, e2]
  have e3 : i * k + k + k - (i * k + k) = k := by omega
  have e4 : i * k + k - i * k = k := by omega
  have e5 : k + i * k = i * k + k := by omega
  rw [e3, e4, e5]

theorem join_slices {α : Type} :
    ∀ (n k : Nat) (l : List α), l.length ≤ n * k →
      ((List.range n).map (fun i => jsSlice l (i * k) ((i + 1) * k))).flatten = l := by
  intro n
  induction n with
  | zero =>
      intro k l h
      simp at h
      simp [h]
  | succ m ih =>
      intro k l h
      rw [List.range_succ_eq_map, List.map_cons, List.flatten_cons]
      have head : jsSlice l (0 * k) ((0 + 1) * k) = l.take k := by
        unfold jsSlice
        simp
      have tail :
          ((List.range m).map (fun i => jsSlice l ((i + 1) * k) ((i + 2) * k))).flatten
            = l.drop k := by
        have hlen : (l.drop k).length ≤ m * k := by
          rw [List.length_drop]
          have : (m + 1) * k = m * k + k := by ring
          omega
        have := ih k (l.drop k) hlen
        rw [← this]
        congr 1
        apply List.map_congr_left
        intro i _
        exact jsSlice_shift l i k
      have comp :
          (List.map (fun i => jsSlice l (i * k) ((i + 1) * k)) (List.map Nat.succ (List.range m)))
            = (List.range m).map (fun i => jsSlice l ((i + 1) * k) ((i + 2) * k)) := by
        rw [List.map_map]
        apply List.map_congr_left
        intro i _
        rfl
      rw [comp, head, tail, List.take_append_drop]

theorem length_le_numPages_mul (n k : Nat) (hk : 0 < k) : n ≤ numPages n k * k := by
  unfold numPages
  have key := Nat.div_add_mod (n + k - 1) k
  rw [Nat.mul_comm k ((n + k - 1) / k)] at key
  have hlt : (n + k - 1) % k < k := Nat.mod_lt _ hk
  omega

/-- C2.  For every sorted list, positive page size `k` and positive
`currentPage`: the slice taken by the code is exactly
`[(currentPage-1)*k, currentPage*k)`, each page has length at most
`k`, and the pages `1 .. ceil(n/k)` concatenated in order reproduce
the sorted list exactly once. -/
theorem jobItemsSortedAndSliced_spec (sorted : List JobItem) (p k : Nat)
    (hk : 0 < k) (hp : 1 ≤ p) :
    jobItemsSortedAndSliced sorted p k = jsSlice sorted ((p - 1) * k) (p * k) ∧
    (jobItemsSortedAndSliced sorted p k).length ≤ k ∧
    allPages sorted k = sorted := by
  refine ⟨?_, ?_, ?_⟩
  · unfold jobItemsSortedAndSliced
    rw [Nat.sub_mul, one_mul]
  · unfold jobItemsSortedAndSliced jsSlice
    have hk' : k ≤ p * k := le_mul_of_one_le_left (Nat.zero_le k) hp
    have e : p * k - (p * k - k) = k := by omega
    rw [e]
    exact List.length_take_le _ _
  · unfold allPages
    have comp :
        (List.range (numPages sorted.length k)).map
            (fun i => jobItemsSortedAndSliced sorted (i + 1) k)
          = (List.range (numPages sorted.length k)).map
            (fun i => jsSlice sorted (i * k) ((i + 1) * k)) := by
      apply List.map_congr_left
      intro i _
      unfold jobItemsSortedAndSliced
      rw [Nat.add_mul, one_mul, Nat.add_sub_cancel]
    rw [comp]
    exact join_slices _ k sorted (length_le_numPages_mul _ _ hk)

/-- Witness for C2 at a concrete input: page 2 of a 3-element list
with page size 2. -/
theorem jobItemsSortedAndSliced_spec_witness :
    jobItemsSortedAndSliced [⟨1, "", "", 1, 1⟩, ⟨2, "", "", 2, 2⟩, ⟨3, "", "", 3, 3⟩] 2 2
        = jsSlice [⟨1, "", "", 1, 1⟩, ⟨2, "", "", 2, 2⟩, ⟨3, "", "", 3, 3⟩] ((2 - 1) * 2) (2 * 2) ∧
      (jobItemsSortedAndSliced [⟨1, "", "", 1, 1⟩, ⟨2, "", "", 2, 2⟩, ⟨3, "", "", 3, 3⟩] 2 2).length ≤ 2 ∧
      allPages [⟨1, "", "", 1, 1⟩, ⟨2, "", "", 2, 2⟩, ⟨3, "", "", 3, 3⟩] 2
        = [⟨1, "", "", 1, 1⟩, ⟨2, "", "", 2, 2⟩, ⟨3, "", "", 3, 3⟩] :=
  jobItemsSortedAndSliced_spec _ 2 2 (by decide) (by decide)

/-! ### List view-state machine (`JobItemsContextProvider`, C3 / C4) -/

/-- The state held by `JobItemsContextProvider` together with the
debounced search text it consumes: `currentPage` starts at `1`
(`useState(1)`), `sortBy` at `"relevant"`.  `currentPage` is an `Int`
because `handleChangePage` decrements it without any guard. -/
structure ListViewState where
  currentPage : Int
  sortBy : String
  searchText : String
deriving DecidableEq, Repr

/-- The events that can change this state: `handleChangePage`
(direction is the runtime string `"next"` / `"previous"`),
`handleChangeSortBy`, and a change of the (debounced) search text. -/
inductive ListEvent where
  | changePage (direction : String)
  | changeSortBy (newSortBy : String)
  | changeSearch (newText : String)
deriving DecidableEq, Repr

/-- One step of the provider.  `handleChangePage`:
`"next"` → `prev + 1`, `"previous"` → `prev - 1`, no clamping.
`handleChangeSortBy`: `setCurrentPage(1); setSortBy(newSortBy)`.
A search-text change updates only the text — nothing in
`JobItemsContextProvider` resets `currentPage` on it. -/
def stepListView (s : ListViewState) (e : ListEvent) : ListViewState :=
  match e with
  | .changePage direction =>
      if direction = "next" then { s with currentPage := s.currentPage + 1 }
      else if direction = "previous" then { s with currentPage := s.currentPage - 1 }
      else s
  | .changeSortBy newSortBy => { s with currentPage := 1, sortBy := newSortBy }
  | .changeSearch newText => { s with searchText := newText }

/-- The initial state of `JobItemsContextProvider`. -/
def initListView : ListViewState :=
  { currentPage := 1, sortBy := "relevant", searchText := "" }

/-- Run a sequence of events from the initial state. -/
def runListView (events : List ListEvent) : ListViewState :=
  events.foldl stepListView initListView

/-- C3 counterexample: go to page 2, then change the search text.
The search-text step changed `searchText`, yet `currentPage` is still
`2`, not `1` — the provider never resets the page on a search change. -/
theorem searchChange_page_not_reset :
    runListView [ListEvent.changePage "next", ListEvent.changeSearch "react"] =
        { currentPage := 2, sortBy := "relevant", searchText := "react" } ∧
      ((2 : Int) = 1 → False) := by
  refine ⟨rfl, by decide⟩

/-- C3 amended: after any `handleChangeSortBy` step `currentPage` is
`1`; a search-text step leaves `currentPage` unchanged (it is not
reset). -/
theorem sortByChange_resets_page (s : ListViewState) (newSortBy newText : String) :
    (stepListView s (ListEvent.changeSortBy newSortBy)).currentPage = 1 ∧
    (stepListView s (ListEvent.changeSearch newText)).currentPage = s.currentPage :=
  ⟨rfl, rfl⟩

/-- `totalNumberOfResults` from the provider: `jobItems?.length || 0`. -/
def totalNumberOfResults (jobItems : Option (List JobItem)) : Nat :=
  (jobItems.getD []).length

/-- `totalNumberOfPages` from the provider:
`totalNumberOfResults / RESULTS_PER_PAGE` — plain (float) division,
modelled exactly over `ℚ`; no `Math.ceil`. -/
def totalNumberOfPages (totalResults k : Nat) : ℚ :=
  (totalResults : ℚ) / (k : ℚ)

/-- C4 fails on the code: a single `"previous"` step from the initial
state drives `currentPage` to `0` (below 1 — no clamping), and with 5
results and page size 7 the exposed `totalNumberOfPages` is `5/7`,
not `ceil(5/7) = 1`. -/
theorem changePage_unclamped :
    (runListView [ListEvent.changePage "previous"]).currentPage = 0 ∧
      ((1 : Int) ≤ 0 → False) ∧
      totalNumberOfPages (totalNumberOfResults (some
        [⟨1, "", "", 1, 1⟩, ⟨2, "", "", 1, 1⟩, ⟨3, "", "", 1, 1⟩,
         ⟨4, "", "", 1, 1⟩, ⟨5, "", "", 1, 1⟩])) 7 = 5 / 7 ∧
      ((5 / 7 : ℚ) = (numPages 5 7 : ℚ) → False) := by
  refine ⟨rfl, by decide, by norm_num [totalNumberOfPages, totalNumberOfResults], ?_⟩
  intro h
  norm_num [numPages] at h

/-! ### JSON round-trip for the bookmark store (C5 / C10)

`useLocalStorage` persists `bookmarkedIds` (an array of integer job
ids) with `JSON.stringify` and reads it back with `JSON.parse`,
without any try/catch.  `jsonStringify`/`jsonParse` below model both
on the store's value domain — JSON arrays of (non-negative) integers,
exactly the strings `JSON.stringify` emits for them (no whitespace).
`jsonParse` returning `none` models `JSON.parse` throwing a
`SyntaxError`. -/

/-- The decimal digit character for `m` (defined for `m < 10`). -/
def digitCharOf (m : Nat) : Char :=
  match m with
  | 0 => '0' | 1 => '1' | 2 => '2' | 3 => '3' | 4 => '4'
  | 5 => '5' | 6 => '6' | 7 => '7' | 8 => '8' | _ => '9'

/-- The numeric value of a decimal digit character. -/
def digitVal (c : Char) : Nat := c.toNat - 48

/-- The decimal digits of `n`, most significant first. -/
def natDigits (n : Nat) : List Char :=
  if _h : n < 10 then [digitCharOf n]
  else natDigits (n / 10) ++ [digitCharOf (n % 10)]
decreasing_by exact Nat.div_lt_self (by omega) (by omega)

/-- Serialize the items of a JSON integer array, including the
closing bracket: `JSON.stringify` emits `"n0,n1,…,nk]"` after the
opening `[`. -/
def serItems : List Nat → List Char
  | [] => [']']
  | [n] => natDigits n ++ [']']
  | n :: rest => natDigits n ++ ',' :: serItems rest

/-- `JSON.stringify` on an array of non-negative integers. -/
def jsonStringify (l : List Nat) : List Char :=
  '[' :: serItems l

/-- Decimal value of a digit string, with accumulator. -/
def digitsValAcc (a : Nat) (l : List Char) : Nat :=
  l.foldl (fun acc c => acc * 10 + digitVal c) a

/-- Decimal value of a digit string. -/
def digitsVal (l : List Char) : Nat := digitsValAcc 0 l

/-- Parse the items of a JSON integer array (after the opening `[`),
requiring the closing `]` to end the input.  `fuel` bounds the number
of items; `none` models a `SyntaxError`. -/
def parseItems : Nat → List Char → Option (List Nat)
  | 0, _ => none
  | fuel + 1, cs =>
      let ds := cs.takeWhile (fun c => c.isDigit)
      let rest := cs.dropWhile (fun c => c.isDigit)
      if ds.isEmpty then none
      else
        match rest with
        | ']' :: r => if r.isEmpty then some [digitsVal ds] else none
        | ',' :: r => (parseItems fuel r).map (fun t => digitsVal ds :: t)
        | _ => none

/-- `JSON.parse` on the bookmark store's value domain: accepts
exactly the JSON integer-array strings, `none` elsewhere (the
`SyntaxError` case). -/
def jsonParse (cs : List Char) : Option (List Nat) :=
  match cs with
  | [] => none
  | c :: rest =>
      if c = '[' then
        if rest = [']'] then some []
        else parseItems (rest.length + 1) rest
      else none

theorem digitVal_digitCharOf (m : Nat) (h : m < 10) :
    digitVal (digitCharOf m) = m := by
  interval_cases m <;> rfl

theorem isDigit_digitCharOf (m : Nat) : (digitCharOf m).isDigit = true := by
  unfold digitCharOf
  rcases m with _ | _ | _ | _ | _ | _ | _ | _ | _ | m <;> rfl

theorem natDigits_ne_nil (n : Nat) : natDigits n ≠ [] := by
  rw [natDigits]
  split
  · simp
  · simp

theorem natDigits_all_digit (n : Nat) : ∀ c ∈ natDigits n, c.isDigit = true := by
  induction n using Nat.strong_induction_on with
  | _ n ih =>
      rw [natDigits]
      split
      · intro c hc
        rw [List.mem_singleton] at hc
        subst hc
        exact isDigit_digitCharOf n
      · intro c hc
        rw [List.mem_append] at hc
        rcases hc with hc | hc
        · exact ih (n / 10) (Nat.div_lt_self (by omega) (by omega)) c hc
        · rw [List.mem_singleton] at hc
          subst hc
          exact isDigit_digitCharOf (n % 10)

theorem digitsValAcc_append (a : Nat) (l1 l2 : List Char) :
    digitsValAcc a (l1 ++ l2) = digitsValAcc (digitsValAcc a l1) l2 := by
  unfold digitsValAcc
  rw [List.foldl_append]

theorem digitsValAcc_single (a : Nat) (c : Char) :
    digitsValAcc a [c] = a * 10 + digitVal c := rfl

theorem digitsValAcc_natDigits (n : Nat) :
    ∀ a, digitsValAcc a (natDigits n) = a * 10 ^ (natDigits n).length + n := by
  induction n using Nat.strong_induction_on with
  | _ n ih =>
      intro a
      rw [natDigits]
      split
      · next h =>
          rw [digitsValAcc_single, digitVal_digitCharOf n h]
          simp
      · next h =>
          rw [digitsValAcc_append, ih (n / 10) (Nat.div_lt_self (by omega) (by omega)),
            digitsValAcc_single, digitVal_digitCharOf (n % 10) (Nat.mod_lt n (by omega)),
            List.length_append, List.length_singleton, pow_succ]
          have hdm : n / 10 * 10 + n % 10 = n := by
            have := Nat.div_add_mod n 10
            omega
          ring_nf
          omega

theorem digitsVal_natDigits (n : Nat) : digitsVal (natDigits n) = n := by
  unfold digitsVal
  rw [digitsValAcc_natDigits]
  simp

theorem takeWhile_digits_append (l : List Char) (d : Char) (r : List Char)
    (hl : ∀ c ∈ l, c.isDigit = true) (hd : d.isDigit = false) :
    (l ++ d :: r).takeWhile (fun c => c.isDigit) = l := by
  induction l with
  | nil => simp [List.takeWhile_cons, hd]
  | cons a t ih =>
      have ha : a.isDigit = true := hl a (by simp)
      have ih' := ih (fun c hc => hl c (by simp [hc]))
      simp [List.takeWhile_cons, ha, ih']

theorem dropWhile_digits_append (l : List Char) (d : Char) (r : List Char)
    (hl : ∀ c ∈ l, c.isDigit = true) (hd : d.isDigit = false) :
    (l ++ d :: r).dropWhile (fun c => c.isDigit) = d :: r := by
  induction l with
  | nil => simp [List.dropWhile_cons, hd]
  | cons a t ih =>
      have ha : a.isDigit = true := hl a (by simp)
      have ih' := ih (fun c hc => hl c (by simp [hc]))
      simp [List.dropWhile_cons, ha, ih']

theorem parseItems_serItems :
    ∀ (l : List Nat) (fuel : Nat), l ≠ [] → l.length ≤ fuel →
      parseItems fuel (serItems l) = some l := by
  intro l
  induction l with
  | nil => intro fuel h _; exact absurd rfl h
  | cons n rest ih =>
      intro fuel _ hf
      match fuel with
      | 0 => simp at hf
      | f + 1 =>
          cases rest with
          | nil =>
              show parseItems (f + 1) (natDigits n ++ [']']) = some [n]
              simp only [parseItems]
              rw [takeWhile_digits_append _ _ _ (natDigits_all_digit n) (by decide),
                dropWhile_digits_append _ _ _ (natDigits_all_digit n) (by decide)]
              have hne : (natDigits n).isEmpty = false := by
                cases h : natDigits n with
                | nil => exact absurd h (natDigits_ne_nil n)
                | cons a t => rfl
              rw [if_neg (by simp [hne])]
              simp [digitsVal_natDigits]
          | cons m rest' =>
              show parseItems (f + 1) (natDigits n ++ ',' :: serItems (m :: rest'))
                  = some (n :: m :: rest')
              simp only [parseItems]
              rw [takeWhile_digits_append _ _ _ (natDigits_all_digit n) (by decide),
                dropWhile_digits_append _ _ _ (natDigits_all_digit n) (by decide)]
              have hne : (natDigits n).isEmpty = false := by
                cases h : natDigits n with
                | nil => exact absurd h (natDigits_ne_nil n)
                | cons a t => rfl
              rw [if_neg (by simp [hne])]
              have hrec := ih f (by simp) (by simpa using hf)
              simp [hrec, digitsVal_natDigits]

theorem length_le_length_serItems : ∀ l : List Nat, l.length ≤ (serItems l).length := by
  intro l
  induction l with
  | nil => simp [serItems]
  | cons n rest ih =>
      have h1 : 1 ≤ (natDigits n).length := by
        cases h : natDigits n with
        | nil => exact absurd h (natDigits_ne_nil n)
        | cons a t => simp
      cases rest with
      | nil => simp [serItems]
      | cons m rest' =>
          show (n :: m :: rest').length ≤ (natDigits n ++ ',' :: serItems (m :: rest')).length
          simp only [List.length_cons, List.length_append]
          simp only [List.length_cons] at ih
          omega

/-- C10.  `JSON.parse ∘ JSON.stringify` is the identity on bookmark-id
lists: the persisted bookmark set round-trips unchanged (the list —
hence in particular the set — of ids is preserved). -/
theorem bookmarks_roundtrip (l : List Nat) : jsonParse (jsonStringify l) = some l := by
  cases l with
  | nil => rfl
  | cons n rest =>
      have h1 : 1 ≤ (natDigits n).length := by
        cases h : natDigits n with
        | nil => exact absurd h (natDigits_ne_nil n)
        | cons a t => simp
      have hne : serItems (n :: rest) ≠ [']'] := by
        intro h
        obtain ⟨X, hX⟩ : ∃ X, serItems (n :: rest) = natDigits n ++ X := by
          cases rest with
          | nil => exact ⟨[']'], rfl⟩
          | cons m r' => exact ⟨',' :: serItems (m :: r'), rfl⟩
        rw [hX] at h
        cases hd : natDigits n with
        | nil => exact natDigits_ne_nil n hd
        | cons a t' =>
            rw [hd, List.cons_append] at h
            injection h with h3 h4
            have ha : a.isDigit = true := natDigits_all_digit n a (by rw [hd]; simp)
            rw [h3] at ha
            exact absurd ha (by decide)
      show (if ('[' : Char) = '[' then
              if serItems (n :: rest) = [']'] then some []
              else parseItems ((serItems (n :: rest)).length + 1) (serItems (n :: rest))
            else none) = some (n :: rest)
      rw [if_pos rfl, if_neg hne]
      exact parseItems_serItems (n :: rest) _ (by simp)
        (le_trans (length_le_length_serItems (n :: rest)) (by omega))

/-- JavaScript `x || y` where `x` is `localStorage.getItem(key)`
(`null` or a string): `null` and the empty string are falsy. -/
def jsOrString (stored : Option (List Char)) (fallback : List Char) : List Char :=
  match stored with
  | none => fallback
  | some s => if s.isEmpty then fallback else s

/-- The `useState` initializer of `useLocalStorage`:
`JSON.parse(localStorage.getItem(key) || JSON.stringify(initialValue))`.
There is no try/catch; `none` means the `JSON.parse` call throws and
the exception escapes the hook. -/
def useLocalStorageInit (stored : Option (List Char)) (initialValue : List Nat) :
    Option (List Nat) :=
  jsonParse (jsOrString stored (jsonStringify initialValue))

/-- C5 fails on the code: with the malformed persisted value `"{"`
the initializer throws (models `JSON.parse` raising `SyntaxError` —
there is no try/catch in `useLocalStorage`), rather than initializing
to the empty set.  The absent-value half of the claim does hold: with
no persisted value the store seeds to the empty set. -/
theorem useLocalStorage_throws_on_malformed :
    useLocalStorageInit (some ['{']) [] = none ∧
      useLocalStorageInit none [] = some [] :=
  ⟨rfl, rfl⟩

/-! ### Error path (`fetchJobItem` / `handleError`, C6) -/

/-- A JavaScript value as inspected by `handleError` (`utils.ts`):
an `Error` instance (carrying its `message`), a string, or anything
else. -/
inductive JsValue where
  | errorObj (message : String)
  | str (s : String)
  | other
deriving DecidableEq, Repr

/-- `handleError` from `utils.ts`, returning the string passed to
`toast.error`.  The source reads:
`let message = ""; if (error instanceof Error) { const message = error.message; } …` —
the inner `const message` shadows the outer variable, so for `Error`
inputs the outer `message` keeps its initial value `""`. -/
def handleError (error : JsValue) : String :=
  match error with
  | .errorObj _ => ""
  | .str s => s
  | .other => "An error occurred"

/-- An HTTP response as seen by `fetchJobItem`: either `res.ok` with a
payload, or a non-2xx whose JSON body may or may not carry a
`description` field. -/
inductive HttpResponse (α : Type) where
  | ok (body : α)
  | notOk (description : Option String)

/-- `fetchJobItem` / `fetchJobItems` failure path (`hooks.ts`): on
`!res.ok` it throws `new Error(errorData.description)`.  When the body
has no `description` field this is `new Error(undefined)`, whose
`message` is the empty string — there is no generic fallback in the
code. -/
def fetchJobItem {α : Type} (resp : HttpResponse α) : Except String α :=
  match resp with
  | .ok body => .ok body
  | .notOk d =>
      .error (match d with
        | some s => s
        | none => "")

/-- C6 fails on the code, twice over: a non-2xx response whose body
lacks `description` produces an error whose message is `""` (no
generic fallback), and `handleError` toasts `""` for every `Error`
instance — including one carrying the human-readable message
`"Job not found"` — because of the `const message` shadowing bug. -/
theorem handleError_drops_message :
    fetchJobItem (HttpResponse.notOk (α := Nat) none) = Except.error "" ∧
      handleError (JsValue.errorObj "Job not found") = "" ∧
      ("" = "Job not found" → False) :=
  ⟨rfl, rfl, by decide⟩

/-! ### Query gating (`useSearchQuery` / `useJobItem`, C7 / C8)

The data-fetching layer wraps an external cache library; the library
itself is not part of this repository.  Modelled from the spec:
`get(key, producer, options)` where the `enabled` option is a boolean
gate — "when false, producer is not invoked and isLoading is false";
when enabled, the query reflects the state of the one in-flight or
cached fetch for its key. -/

/-- The state of the (at most one) fetch for a query key. -/
inductive FetchState (α : Type) where
  | inFlight
  | resolved (value : α)
  | failed (message : String)

/-- Modelled from the spec: the Remote Fetch Cache `get` — returns
`(data, isInitialLoading, producerInvoked)`.  With `enabled = false`
the producer is not invoked, `data` is `undefined` (`none`) and
loading is `false`; with `enabled = true` the result reflects the
fetch state. -/
def useQueryModel {α : Type} (enabled : Bool) (st : FetchState α) :
    Option α × Bool × Bool :=
  if enabled then
    (match st with
      | .inFlight => (none, true, true)
      | .resolved v => (some v, false, true)
      | .failed _ => (none, false, true))
  else (none, false, false)

/-- The search response shape `{public, sorted, jobItems}`. -/
structure JobItemsApiResponse where
  publicFlag : Bool
  sorted : Bool
  jobItems : List JobItem

/-- `useSearchQuery` (`hooks.ts`): keyed by the search text, with
`enabled: Boolean(searchText)` (the empty string is falsy); returns
`(jobItems, isLoading, producerInvoked)` where
`jobItems = data?.jobItems`. -/
def useSearchQuery (searchText : String) (st : FetchState JobItemsApiResponse) :
    Option (List JobItem) × Bool × Bool :=
  let r := useQueryModel (!searchText.isEmpty) st
  (r.1.map (fun d => d.jobItems), r.2.1, r.2.2)

/-- C7.  For the empty search text the query is disabled: whatever the
fetch layer's state, the producer is never invoked, `jobItems` is
`undefined` and `isLoading` is `false`. -/
theorem useSearchQuery_disabled_on_empty (st : FetchState JobItemsApiResponse) :
    useSearchQuery "" st = (none, false, false) := rfl

/-! ### Active-detail selector (`useActiveId` / `useJobItem`, C8) -/

/-- A JavaScript number that is either `NaN` or an integer. -/
inductive JsNumber where
  | nan
  | int (n : Int)
deriving DecidableEq, Repr

/-- JavaScript truthiness of a number: `0` and `NaN` are falsy. -/
def jsTruthyNumber : JsNumber → Bool
  | .nan => false
  | .int n => n != 0

/-- JavaScript unary plus on a string, restricted to the shapes a URL
fragment takes here: the empty string converts to `0`, an
optional-sign digit string to that integer, and any other
(non-numeric) string to `NaN`.  (Fractional/exponent number forms
never arise from the integer job ids and are out of scope.) -/
def jsUnaryPlus (s : List Char) : JsNumber :=
  if s.isEmpty then JsNumber.int 0
  else if s.all (fun c => c.isDigit) then JsNumber.int (digitsVal s)
  else if s.head? = some '-' ∧ s.drop 1 ≠ [] ∧ (s.drop 1).all (fun c => c.isDigit) then
    JsNumber.int (-(digitsVal (s.drop 1) : Int))
  else JsNumber.nan

/-- `useActiveId` (`hooks.ts`) after its effect has run (it runs once
at mount and on every `hashchange`): `+window.location.hash.slice(1)`.
`window.location.hash` is `""` for an absent fragment and `"#…"`
otherwise; the result is `some` of the converted number — the state
only holds its initial `null` before the effect fires. -/
def useActiveId (hash : List Char) : Option JsNumber :=
  some (jsUnaryPlus (hash.drop 1))

/-- `useJobItem`'s gate (`hooks.ts`): `enabled: Boolean(id)` — the
detail query is issued iff the active id is truthy. -/
def useJobItemInvoked (id : JsNumber) : Bool := jsTruthyNumber id

/-- C8 counterexample: for an absent fragment the selector yields the
number `0` (JavaScript `+"" === 0`), not `null` (`none`) as the claim
states. -/
theorem useActiveId_absent_yields_zero :
    useActiveId [] = some (JsNumber.int 0) ∧
      (some (JsNumber.int 0) = (none : Option JsNumber) → False) :=
  ⟨rfl, by decide⟩

/-- C8 amended: the selector always yields a number (never `null`
once mounted).  An absent fragment yields `0` and a `#`-prefixed
non-numeric fragment yields `NaN`; both are falsy, so the detail
query is not issued.  A fragment `#<digits>` with nonzero value
yields that integer id, which is truthy, so the detail query is
issued for it. -/
theorem useActiveId_spec (hash : List Char) :
    (useActiveId hash).isSome = true ∧
    (hash = [] →
      useActiveId hash = some (JsNumber.int 0) ∧
      useJobItemInvoked (JsNumber.int 0) = false) ∧
    (∀ ds, hash = '#' :: ds → ds ≠ [] → ds.all (fun c => c.isDigit) = true →
      useActiveId hash = some (JsNumber.int (digitsVal ds)) ∧
      (0 < digitsVal ds → useJobItemInvoked (JsNumber.int (digitsVal ds)) = true)) ∧
    (∀ ds, hash = '#' :: ds → jsUnaryPlus ds = JsNumber.nan →
      useActiveId hash = some JsNumber.nan ∧
      useJobItemInvoked JsNumber.nan = false) := by
  refine ⟨rfl, ?_, ?_, ?_⟩
  · intro h
    subst h
    exact ⟨rfl, rfl⟩
  · intro ds h hne hdig
    subst h
    constructor
    · show some (jsUnaryPlus ds) = some (JsNumber.int (digitsVal ds))
      unfold jsUnaryPlus
      rw [if_neg (by simp [hne]), if_pos hdig]
    · intro hpos
      show ((digitsVal ds : Int) != 0) = true
      simp only [bne_iff_ne, ne_eq]
      intro h0
      omega
  · intro ds h hnan
    subst h
    exact ⟨congrArg some hnan, rfl⟩

/-- Witness for C8's amended theorem at the fragment `#42`. -/
theorem useActiveId_spec_witness :
    useActiveId ['#', '4', '2'] = some (JsNumber.int 42) ∧
      useJobItemInvoked (JsNumber.int 42) = true := by
  have h := (useActiveId_spec ['#', '4', '2']).2.2.1 ['4', '2'] rfl
    (by decide) (by decide)
  exact ⟨h.1, h.2 (by decide)⟩

/-! ### Debouncer (`useDebounce`, C9)

`useDebounce` schedules `setDebouncedValue(value)` with
`setTimeout(…, delay)` on every change of `value`, and the effect
cleanup `clearTimeout`s the previous timer.  The event-loop behaviour
is modelled as a state machine over discrete time: the state holds
the propagated value, the at-most-one pending timer `(value,
fireTime)`, and a log of every propagation that has occurred. -/

structure DebounceState (α : Type) where
  debounced : α
  pending : Option (α × Nat)
  log : List (Nat × α)
deriving DecidableEq, Repr

/-- Let time advance to `t`: the pending timer fires (propagating its
value and logging the propagation) iff its fire time has been
reached. -/
def fireIfDue {α : Type} (t : Nat) (s : DebounceState α) : DebounceState α :=
  match s.pending with
  | some (v, ft) =>
      if ft ≤ t then { debounced := v, pending := none, log := s.log ++ [(ft, v)] }
      else s
  | none => s

/-- A new input value at time `t`: any timer already due has fired;
the cleanup cancels whatever is still pending and a fresh timer is
started for `t + delay`. -/
def inputAt {α : Type} (delay : Nat) (s : DebounceState α) (t : Nat) (v : α) :
    DebounceState α :=
  let s' := fireIfDue t s
  { s' with pending := some (v, t + delay) }

/-- Run the hook: the initial value `v0` arrives at mount time `t0`
(the effect also runs for the initial render), then the remaining
inputs in order. -/
def runDebounce {α : Type} (delay : Nat) (v0 : α) (t0 : Nat) (rest : List (Nat × α)) :
    DebounceState α :=
  rest.foldl (fun s tv => inputAt delay s tv.1 tv.2) ⟨v0, some (v0, t0 + delay), []⟩

/-- The input times are strictly increasing and each input arrives
before the previous timer's fire time (a rapid burst). -/
def gapsOk {α : Type} (delay : Nat) : Nat → List (Nat × α) → Bool
  | _, [] => true
  | tprev, (t, _) :: rest =>
      (decide (tprev < t) && decide (t < tprev + delay)) && gapsOk delay t rest

/-- The last input of the burst. -/
def lastInput {α : Type} (t0 : Nat) (v0 : α) (rest : List (Nat × α)) : Nat × α :=
  rest.foldl (fun _ tv => tv) (t0, v0)

theorem runDebounce_aux {α : Type} (delay : Nat) :
    ∀ (rest : List (Nat × α)) (d vp : α) (tp : Nat) (L : List (Nat × α)),
      gapsOk delay tp rest = true →
      rest.foldl (fun s tv => inputAt delay s tv.1 tv.2) ⟨d, some (vp, tp + delay), L⟩
        = ⟨d, some ((lastInput tp vp rest).2, (lastInput tp vp rest).1 + delay), L⟩ := by
  intro rest
  induction rest with
  | nil => intro d vp tp L _; rfl
  | cons tv rest' ih =>
      intro d vp tp L hg
      obtain ⟨t, v⟩ := tv
      simp only [gapsOk, Bool.and_eq_true, decide_eq_true_eq] at hg
      obtain ⟨⟨_, hlt⟩, hg'⟩ := hg
      rw [List.foldl_cons]
      have hstep :
          inputAt delay (⟨d, some (vp, tp + delay), L⟩ : DebounceState α) t v
            = ⟨d, some (v, t + delay), L⟩ := by
        unfold inputAt fireIfDue
        simp only
        rw [if_neg (by omega)]
      rw [hstep, ih d v t L hg']
      rfl

/-- C9.  For a rapid input burst (each input arrives before the
pending timer fires) with delay `d`: every new input cancels the
pending timer, nothing is propagated during the burst, and once the
input stays stable the single propagated value is the last input,
appearing exactly at `lastTime + d` — the observed log at time `T` is
empty for `T < lastTime + d` and exactly one entry afterwards. -/
theorem useDebounce_spec {α : Type} (delay t0 : Nat) (v0 : α) (rest : List (Nat × α))
    (T : Nat) (h : gapsOk delay t0 rest = true) :
    (runDebounce delay v0 t0 rest).log = [] ∧
    (runDebounce delay v0 t0 rest).pending
        = some ((lastInput t0 v0 rest).2, (lastInput t0 v0 rest).1 + delay) ∧
    (fireIfDue T (runDebounce delay v0 t0 rest)).log
        = (if (lastInput t0 v0 rest).1 + delay ≤ T
            then [((lastInput t0 v0 rest).1 + delay, (lastInput t0 v0 rest).2)]
            else []) ∧
    ((lastInput t0 v0 rest).1 + delay ≤ T →
      (fireIfDue T (runDebounce delay v0 t0 rest)).debounced = (lastInput t0 v0 rest).2) := by
  have key := runDebounce_aux delay rest v0 v0 t0 [] h
  unfold runDebounce
  rw [key]
  refine ⟨rfl, rfl, ?_, ?_⟩
  · unfold fireIfDue
    simp only
    split
    · next hle => simp
    · next hle => rfl
  · intro hle
    unfold fireIfDue
    simp only
    rw [if_pos hle]

/-- Witness for C9: inputs at t = 0, 10, 20 with delay 500 — nothing
propagates during the burst, and observing at t = 520 shows exactly
one propagation, of the last value, at time 520. -/
theorem useDebounce_spec_witness :
    gapsOk 500 0 [(10, "b"), (20, "c")] = true ∧
      (runDebounce 500 "a" 0 [(10, "b"), (20, "c")]).log = [] ∧
      (fireIfDue 520 (runDebounce 500 "a" 0 [(10, "b"), (20, "c")])).log = [(520, "c")] ∧
      (fireIfDue 519 (runDebounce 500 "a" 0 [(10, "b"), (20, "c")])).log = [] := by
  have h520 := useDebounce_spec 500 0 "a" [(10, "b"), (20, "c")] 520 (by decide)
  have h519 := useDebounce_spec 500 0 "a" [(10, "b"), (20, "c")] 519 (by decide)
  refine ⟨by decide, h520.1, ?_, ?_⟩
  · have := h520.2.2.1
    simpa using this
  · have := h519.2.2.1
    simpa using this

end RemoteDev
